import Mathlib

/-!
Verification of the chunking pipeline of the `infinity-storage` repository.

The development shallowly embeds the upload coordinator (`handleUpload` in
api/api.go), the chunk framing loop it contains, the metadata store calls
(db/files.go, db/keys.go) and the persistence worker (api/uploader.go).
Bytes are modelled as natural numbers, byte streams as lists, and the
non-deterministic sequence of `part.Read` results as a list of delivered
byte slices.  Channel pushes onto `a.queue` are recorded in order in a list.
-/

namespace InfinityStorage

/-- `ChunkSize` constant from api/api.go: `ChunkSize = 20 * 1024 * 1024`. -/
def ChunkSize : Nat := 20 * 1024 * 1024

/-- One row of the `Chunk` table (db/structs.go).  `data` models the raw
`Data` bytes.  Fields not mentioned in a Go struct literal take the Go zero
value (`""` for strings, `nil`, modelled `[]`, for byte slices). -/
structure Chunk where
  fileID : Nat
  position : Nat
  size : Nat
  status : String
  telegramFileID : String
  data : List Nat
  deriving Repr, DecidableEq

/-- The `&db.Chunk{FileID: fileID, Position: chunkIndex, Size: int64(len(chunk)),
Data: chunk}` literal pushed by `handleUpload` (api/api.go lines 283-288 and
311-316).  `Status` and `TelegramFileID` are not set there, so they hold the
Go zero value `""`. -/
def mkUploadChunk (fid pos : Nat) (bytes : List Nat) : Chunk :=
  { fileID := fid, position := pos, size := bytes.length,
    status := "", telegramFileID := "", data := bytes }

/-- Local state of the framing loop inside `handleUpload` (api/api.go lines
256-259): the accumulator slice `chunk`, the ordered trace of chunks pushed
onto `a.queue`, and the running 1-based `chunkIndex`. -/
structure FramerState where
  chunk : List Nat
  queue : List Chunk
  chunkIndex : Nat
  deriving Repr, DecidableEq

/-- The inner `for len(data) > 0` loop of `handleUpload` (api/api.go lines
267-293) processing the bytes `data` delivered by one `part.Read`.
`ChunkSize - st.chunk.length` is the loop's `space` variable.  When
`space > len(data)` the accumulator absorbs the whole read and the loop ends;
otherwise the accumulator is filled to exactly `space` more bytes, the
resulting chunk is pushed onto the queue, the accumulator is reset
(`chunk = chunk[:0]`) and the loop continues on the remaining bytes. -/
def frameData (fid : Nat) (st : FramerState) (data : List Nat) : FramerState :=
  if data.isEmpty then st
  else if ChunkSize - st.chunk.length > data.length then
    { st with chunk := st.chunk ++ data }
  else
    frameData fid
      { chunk := [],
        queue := st.queue ++
          [mkUploadChunk fid st.chunkIndex
            (st.chunk ++ data.take (ChunkSize - st.chunk.length))],
        chunkIndex := st.chunkIndex + 1 }
      (data.drop (ChunkSize - st.chunk.length))
termination_by (data.length, st.chunk.length)
decreasing_by
  rename_i hemp hsp
  rcases Nat.eq_zero_or_pos (ChunkSize - st.chunk.length) with h0 | h0
  · rw [h0, List.drop_zero]
    refine Prod.Lex.right data.length ?_
    have hC : 0 < ChunkSize := by norm_num [ChunkSize]
    have hle : ChunkSize ≤ st.chunk.length := Nat.le_of_sub_eq_zero h0
    simpa using Nat.lt_of_lt_of_le hC hle
  · refine Prod.Lex.left _ _ ?_
    rw [List.length_drop]
    have hpos : 0 < data.length := by
      cases data with
      | nil => simp at hemp
      | cons a l => simp
    exact Nat.sub_lt hpos h0

/-- One multipart form part as seen by `handleUpload` (api/api.go lines
240-253): its form name, its declared file name, the sequence of byte slices
successfully delivered by `part.Read` (each at most 64 KiB in the source,
left arbitrary here — a superset of the real schedules), and whether, after
those deliveries, a further read fails with a non-`io.EOF` error instead of
signalling end of stream.  A Go read returning both `n > 0` and an error is
represented as a delivery followed by a failing read, which is exactly how
the loop treats it (data is processed before the error check). -/
structure Part where
  formName : String
  fileName : String
  reads : List (List Nat)
  readErr : Bool
  deriving Repr, DecidableEq

/-- The multipart body: the parts `mr.NextPart` yields in order, and whether,
after them, `NextPart` fails with a non-`io.EOF` error instead of `io.EOF`. -/
structure Body where
  parts : List Part
  nextPartErr : Bool
  deriving Repr, DecidableEq

/-- One `/upload` request as consumed by `handleUpload`: the two credential
headers, the Content-Type header, whether `mime.ParseMediaType` succeeds on
it, the `boundary` parameter it yields (`""` when absent), and the multipart
body. -/
structure Request where
  authorization : String
  xApiKey : String
  contentType : String
  parseOk : Bool
  boundary : String
  body : Body
  deriving Repr, DecidableEq

/-- One row of the `File` table (db/structs.go). -/
structure FileRec where
  id : Nat
  fileName : String
  size : Nat
  totalChunks : Nat
  status : String
  ownerAPIKey : String
  deriving Repr, DecidableEq

/-- The metadata store visible to the upload path: the `Key` table (as the
list of stored key strings) and the `File` table. -/
structure Store where
  keys : List String
  files : List FileRec
  deriving Repr, DecidableEq

/-- `db.CreateNewFile` (db/files.go lines 19-32): inserts a `File` row with
the given fields and `Status: "uploading"` and returns its fresh
auto-increment id, modelled as one past the current row count. -/
def createNewFile (s : Store) (filename : String) (size : Nat) (key : String)
    (totalChunks : Nat) : Store × Nat :=
  let fid := s.files.length + 1
  ({ s with files := s.files ++
      [{ id := fid, fileName := filename, size := size, totalChunks := totalChunks,
         status := "uploading", ownerAPIKey := key }] }, fid)

/-- `db.UpdateFileMetadata` (db/files.go lines 34-51): loads the `File` row
with the given id, sets name, size, chunk count and `Status: "completed"`,
and saves it.  Modelled as an in-place update of the matching row; when no
row matches, the lookup error is only logged by the caller, so the store is
left unchanged. -/
def updateFileMetadata (s : Store) (fid : Nat) (filename : String) (size : Nat)
    (totalChunks : Nat) : Store :=
  { s with files := s.files.map fun f =>
      if f.id = fid then
        { f with fileName := filename, size := size, totalChunks := totalChunks,
                 status := "completed" }
      else f }

/-- The database writes `handleUpload` performs, recorded in call order. -/
inductive DbOp
  | createFile (filename : String) (size : Nat) (key : String) (totalChunks : Nat)
  | updateMeta (fid : Nat) (filename : String) (size : Nat) (totalChunks : Nat)
  deriving Repr, DecidableEq

/-- The response `handleUpload` produces.  `unauthorized` is the 401 from
`validateAPIKey`, `badRequest` the 400 `"multipart required"` error,
`otherError` any raw non-fiber error returned unchanged (media-type parse
failure, `NextPart` failure — including the empty-boundary error — or a
stream read failure), and `accepted` the final `SendStatus(202)`. -/
inductive UploadResult
  | unauthorized
  | badRequest
  | otherError
  | accepted
  deriving Repr, DecidableEq

/-- Everything observable about one `handleUpload` call: the store after the
call, the chunks pushed onto `a.queue` in order, the database writes in
order, and the response. -/
structure UploadOutcome where
  store : Store
  queued : List Chunk
  ops : List DbOp
  result : UploadResult
  deriving Repr, DecidableEq

/-- Go's `strings.HasPrefix`, rendered on the character lists of the two
strings (equivalent for the ASCII constants the source compares against). -/
def hasPrefix (s pre : String) : Bool := pre.data.isPrefixOf s.data

/-- `validateAPIKey` (api/api.go lines 334-351): take the `Authorization`
header, strip a `"Bearer "` prefix if present (`strings.TrimPrefix`), else
fall back to `X-API-Key`; an empty key or a failed `db.GetAPIKey` lookup
yields the 401 error (`none`), otherwise the stored key string is
returned. -/
def validateAPIKey (s : Store) (req : Request) : Option String :=
  let key :=
    if req.authorization ≠ "" then
      if hasPrefix req.authorization ("Bearer ") then req.authorization.drop 7
      else req.authorization
    else req.xApiKey
  if key = "" then none
  else if s.keys.contains key then some key else none

/-- The per-part read loop of `handleUpload` (api/api.go lines 261-302) on
the successful deliveries of one part: each read's bytes go through the
framing loop and `total` accumulates the byte count. -/
def readLoop (fid : Nat) (st : FramerState) (total : Nat) :
    List (List Nat) → FramerState × Nat
  | [] => (st, total)
  | r :: rs => readLoop fid (frameData fid st r) (total + r.length) rs

/-- Processing of one part with `FormName() == "file"` (api/api.go lines
253-317): run the read loop; a read error aborts immediately (the chunks
already pushed stay pushed, the accumulator's tail bytes are lost);
otherwise, on `io.EOF`, a non-empty accumulator is pushed as the final short
chunk.  Returns the chunks pushed for this part, the observed `total`, and
whether the part completed without a read error. -/
def processPart (fid : Nat) (p : Part) : List Chunk × Nat × Bool :=
  match readLoop fid { chunk := [], queue := [], chunkIndex := 1 } 0 p.reads with
  | (st, total) =>
    if p.readErr then (st.queue, total, false)
    else if st.chunk.length > 0 then
      (st.queue ++ [mkUploadChunk fid st.chunkIndex st.chunk], total, true)
    else (st.queue, total, true)

/-- The `for { part, err := mr.NextPart() ... }` loop of `handleUpload`
(api/api.go lines 240-330).  Parts not named `"file"` are skipped
(`continue`).  For each `"file"` part, the read loop runs; on success
`UpdateFileMetadata` finalizes the file with the part's name, observed size
and `int(math.Ceil(float64(total)/float64(ChunkSize)))` chunks (the exact
natural ceiling `(total + ChunkSize - 1) / ChunkSize`); on a read error the
raw error is returned.  When the parts are exhausted, a `NextPart` failure
returns that error, `io.EOF` yields `SendStatus(202)`. -/
def partsLoop (fid : Nat) (s : Store) (queued : List Chunk) (ops : List DbOp) :
    List Part → Bool → UploadOutcome
  | [], npe =>
      if npe then ⟨s, queued, ops, UploadResult.otherError⟩
      else ⟨s, queued, ops, UploadResult.accepted⟩
  | p :: ps, npe =>
      if p.formName = "file" then
        match processPart fid p with
        | (chunks, total, ok) =>
          if ok then
            partsLoop fid
              (updateFileMetadata s fid p.fileName total
                ((total + ChunkSize - 1) / ChunkSize))
              (queued ++ chunks)
              (ops ++ [DbOp.updateMeta fid p.fileName total
                ((total + ChunkSize - 1) / ChunkSize)])
              ps npe
          else ⟨s, queued ++ chunks, ops, UploadResult.otherError⟩
      else partsLoop fid s queued ops ps npe

/-- `handleUpload` (api/api.go lines 209-332): validate the API key, require
a Content-Type starting with `"multipart/form-data"`, parse the media type,
create the placeholder `File` row, then run the part loop.  With an empty
`boundary` parameter the first `mr.NextPart()` call fails (`"multipart:
boundary is empty"`, Go standard library `mime/multipart`), after the `File`
row was already created. -/
def handleUpload (s : Store) (req : Request) : UploadOutcome :=
  match validateAPIKey s req with
  | none => ⟨s, [], [], UploadResult.unauthorized⟩
  | some key =>
    if hasPrefix req.contentType ("multipart/form-data") then
      if req.parseOk then
        match createNewFile s ("") 0 key 0 with
        | (s1, fid) =>
          if req.boundary = "" then
            ⟨s1, [], [DbOp.createFile ("") 0 key 0], UploadResult.otherError⟩
          else
            partsLoop fid s1 [] [DbOp.createFile ("") 0 key 0]
              req.body.parts req.body.nextPartErr
      else ⟨s, [], [], UploadResult.otherError⟩
    else ⟨s, [], [], UploadResult.badRequest⟩

/-- The chunks pushed onto `a.queue` for one `"file"` part whose stream ends
cleanly after delivering `reads` — the trace claims about the framing loop
quantify over this. -/
def enqueuedChunks (fid : Nat) (reads : List (List Nat)) : List Chunk :=
  (processPart fid { formName := "file", fileName := "", reads := reads,
                     readErr := false }).1

/-- `uploaderWorker` (api/uploader.go lines 15-34) draining a queue of
chunks.  `send` models `tgbot.SendFile("noname.txt", chunk.Data)` (`none` is
an error), `addOk` models whether `db.AddChunkToFile` succeeds on the record
being written.  On success the worker sets `TelegramFileID`, clears `Data`
and writes the record; on any error it panics, terminating the process —
the returned flag records whether a panic happened, and the list holds the
records written before it, in order.  The `time.Sleep(2 * time.Second)`
pacing has no observable effect on this trace and is not modelled. -/
def uploaderWorker (send : List Nat → Option String) (addOk : Chunk → Bool) :
    List Chunk → List Chunk × Bool
  | [] => ([], false)
  | c :: cs =>
    match send c.data with
    | none => ([], true)
    | some tgid =>
      let c1 := { c with telegramFileID := tgid, data := ([] : List Nat) }
      if addOk c1 then
        match uploaderWorker send addOk cs with
        | (stored, p) => (c1 :: stored, p)
      else ([], true)

/-- The worker's handling of a single dequeued chunk, as a partial function:
`some` is the record written by `AddChunkToFile`, `none` means the worker
panicked on this chunk (either adapter call failed). -/
def workerSuccess (send : List Nat → Option String) (addOk : Chunk → Bool)
    (c : Chunk) : Option Chunk :=
  match send c.data with
  | none => none
  | some tgid =>
    let c1 := { c with telegramFileID := tgid, data := ([] : List Nat) }
    if addOk c1 then some c1 else none

/-- Mathematical normal form used to characterise the framing loop: the
maximal sequence of exact `ChunkSize`-byte groups of `l`, in order. -/
def fullFrames (l : List Nat) : List (List Nat) :=
  if ChunkSize ≤ l.length then l.take ChunkSize :: fullFrames (l.drop ChunkSize)
  else []
termination_by l.length
decreasing_by
  rename_i h
  rw [List.length_drop]
  have hC : 0 < ChunkSize := by norm_num [ChunkSize]
  exact Nat.sub_lt (Nat.lt_of_lt_of_le hC h) hC

/-- The bytes of `l` left over after all full `ChunkSize`-byte groups. -/
def restOf (l : List Nat) : List Nat :=
  l.drop (ChunkSize * (fullFrames l).length)

/-- All frames the framing loop emits for the byte stream `l`: the full
groups, followed by the non-empty remainder if there is one. -/
def frames (l : List Nat) : List (List Nat) :=
  fullFrames l ++ (if restOf l = [] then [] else [restOf l])

/-- The chunk records built from a list of frames, with consecutive
positions starting at `i`. -/
def chunksFrom (fid : Nat) : Nat → List (List Nat) → List Chunk
  | _, [] => []
  | i, f :: fs => mkUploadChunk fid i f :: chunksFrom fid (i + 1) fs

/-!
Byte-level model of the same framing loop.  In the source, `chunk` is a
single slice of capacity `ChunkSize`; `a.queue <- &db.Chunk{... Data: chunk}`
publishes a slice header over that backing array, and `chunk = chunk[:0]`
then resets only the length, so every later `append` writes into the very
bytes the queued chunks still reference.  `AliasedFramer` tracks the backing
array's contents (`buf`), the accumulator length (`chunkLen`) and the lengths
of the published slices (`emittedLens`), all of which alias `buf` from
offset 0.
-/

/-- The effect of `append` on the backing array: write `data` at `off`. -/
def writeBuf (buf : List Nat) (off : Nat) (data : List Nat) : List Nat :=
  buf.take off ++ data ++ buf.drop (off + data.length)

/-- Backing-array state of the framing loop. -/
structure AliasedFramer where
  buf : List Nat
  chunkLen : Nat
  emittedLens : List Nat
  deriving Repr, DecidableEq

/-- The framing loop of api/api.go lines 267-293 at the level of the shared
backing array (see above). -/
def frameDataAliased (st : AliasedFramer) (data : List Nat) : AliasedFramer :=
  if data.isEmpty then st
  else if ChunkSize - st.chunkLen > data.length then
    { buf := writeBuf st.buf st.chunkLen data,
      chunkLen := st.chunkLen + data.length,
      emittedLens := st.emittedLens }
  else
    frameDataAliased
      { buf := writeBuf st.buf st.chunkLen (data.take (ChunkSize - st.chunkLen)),
        chunkLen := 0,
        emittedLens := st.emittedLens ++ [st.chunkLen + (ChunkSize - st.chunkLen)] }
      (data.drop (ChunkSize - st.chunkLen))
termination_by (data.length, st.chunkLen)
decreasing_by
  rename_i hemp hsp
  rcases Nat.eq_zero_or_pos (ChunkSize - st.chunkLen) with h0 | h0
  · rw [h0, List.drop_zero]
    refine Prod.Lex.right data.length ?_
    have hC : 0 < ChunkSize := by norm_num [ChunkSize]
    exact Nat.lt_of_lt_of_le hC (Nat.le_of_sub_eq_zero h0)
  · refine Prod.Lex.left _ _ ?_
    rw [List.length_drop]
    have hpos : 0 < data.length := by
      cases data with
      | nil => simp at hemp
      | cons a l => simp
    exact Nat.sub_lt hpos h0

/-- Backing-array state after one `"file"` part delivered `reads` and ended
cleanly, including the final short chunk push (api/api.go lines 305-317). -/
def aliasedPartState (reads : List (List Nat)) : AliasedFramer :=
  let st := reads.foldl frameDataAliased { buf := [], chunkLen := 0, emittedLens := [] }
  if st.chunkLen > 0 then { st with emittedLens := st.emittedLens ++ [st.chunkLen] }
  else st

/-- The `Data` bytes a worker observes if it dequeues the part's chunks after
the producer finished the part (a legal schedule: the queue holds 5 chunks
and the worker sleeps 2 seconds per chunk): each published slice of length
`n` now reads the first `n` bytes of the final backing array. -/
def dequeuedData (st : AliasedFramer) : List (List Nat) :=
  st.emittedLens.map fun n => st.buf.take n

/-- A well-formed `/upload` request: key in `X-API-Key`, a proper
multipart Content-Type with boundary, and the given parts with a clean
end of body. -/
def multipartRequest (key : String) (parts : List Part) : Request :=
  { authorization := "", xApiKey := key,
    contentType := "multipart/form-data; boundary=b", parseOk := true,
    boundary := "b", body := { parts := parts, nextPartErr := false } }

/-- A store holding the single API key `"k"` and no files. -/
def oneKeyStore : Store := { keys := ["k"], files := [] }

/-- A request whose Content-Type is `multipart/form-data` without a
`boundary` parameter: `mime.ParseMediaType` succeeds but yields no
boundary. -/
def noBoundaryRequest : Request :=
  { authorization := "", xApiKey := "k", contentType := "multipart/form-data",
    parseOk := true, boundary := "", body := { parts := [], nextPartErr := false } }

/-! ## Basic facts about the framer -/

lemma chunkSize_pos : 0 < ChunkSize := by norm_num [ChunkSize]

lemma frameData_nil (fid : Nat) (st : FramerState) : frameData fid st [] = st := by
  rw [frameData]
  simp

lemma fullFrames_of_lt {l : List Nat} (h : l.length < ChunkSize) :
    fullFrames l = [] := by
  rw [fullFrames]
  simp [Nat.not_le.mpr h]

lemma fullFrames_of_le {l : List Nat} (h : ChunkSize ≤ l.length) :
    fullFrames l = l.take ChunkSize :: fullFrames (l.drop ChunkSize) := by
  rw [fullFrames]
  simp [h]

/-- Induction along the recursion structure of `fullFrames`. -/
lemma fullFrames_induction (motive : List Nat → Prop)
    (base : ∀ l : List Nat, l.length < ChunkSize → motive l)
    (step : ∀ l : List Nat, ChunkSize ≤ l.length → motive (l.drop ChunkSize) → motive l) :
    ∀ l, motive l := by
  have key : ∀ (n : Nat) (l : List Nat), l.length ≤ n → motive l := by
    intro n
    induction n with
    | zero =>
      intro l h
      exact base l (by have := chunkSize_pos; omega)
    | succ n ih =>
      intro l h
      by_cases hge : ChunkSize ≤ l.length
      · refine step l hge (ih _ ?_)
        rw [List.length_drop]
        have := chunkSize_pos
        omega
      · exact base l (Nat.lt_of_not_le hge)
  exact fun l => key l.length l (Nat.le_refl _)

lemma fullFrames_length (l : List Nat) :
    (fullFrames l).length = l.length / ChunkSize := by
  induction l using fullFrames_induction with
  | base l h => rw [fullFrames_of_lt h, Nat.div_eq_of_lt h]; rfl
  | step l h ih =>
    rw [fullFrames_of_le h]
    rw [Nat.div_eq_sub_div chunkSize_pos h]
    simp only [List.length_cons, ih, List.length_drop]

lemma length_of_mem_fullFrames {l f : List Nat} (h : f ∈ fullFrames l) :
    f.length = ChunkSize := by
  induction l using fullFrames_induction with
  | base l hl => rw [fullFrames_of_lt hl] at h; simp at h
  | step l hl ih =>
    rw [fullFrames_of_le hl] at h
    rcases List.mem_cons.mp h with h1 | h2
    · subst h1; rw [List.length_take]; omega
    · exact ih h2

lemma restOf_of_lt {l : List Nat} (h : l.length < ChunkSize) : restOf l = l := by
  rw [restOf, fullFrames_of_lt h]
  simp

lemma restOf_of_le {l : List Nat} (h : ChunkSize ≤ l.length) :
    restOf l = restOf (l.drop ChunkSize) := by
  rw [restOf, restOf, fullFrames_of_le h]
  simp only [List.length_cons]
  rw [Nat.mul_succ, Nat.add_comm, ← List.drop_drop]

lemma restOf_length (l : List Nat) : (restOf l).length = l.length % ChunkSize := by
  induction l using fullFrames_induction with
  | base l h => rw [restOf_of_lt h, Nat.mod_eq_of_lt h]
  | step l h ih =>
    rw [restOf_of_le h, ih, List.length_drop, Nat.mod_eq_sub_mod h]

lemma restOf_length_lt (l : List Nat) : (restOf l).length < ChunkSize := by
  rw [restOf_length]
  exact Nat.mod_lt _ chunkSize_pos

/-- Processing extra bytes after `l` factors through the remainder of `l`. -/
lemma fullFrames_restOf_append (b : List Nat) : ∀ l : List Nat,
    fullFrames (l ++ b) = fullFrames l ++ fullFrames (restOf l ++ b)
    ∧ restOf (l ++ b) = restOf (restOf l ++ b) := by
  apply fullFrames_induction
  · intro l hl
    rw [fullFrames_of_lt hl, restOf_of_lt hl]
    simp
  · intro l hl ih
    have hlb : ChunkSize ≤ (l ++ b).length := by
      rw [List.length_append]; omega
    have htake : (l ++ b).take ChunkSize = l.take ChunkSize := by
      rw [List.take_append_eq_append_take, Nat.sub_eq_zero_of_le hl]
      simp
    have hdrop : (l ++ b).drop ChunkSize = l.drop ChunkSize ++ b := by
      rw [List.drop_append_eq_append_drop, Nat.sub_eq_zero_of_le hl]
      simp
    constructor
    · rw [fullFrames_of_le hlb, htake, hdrop, (ih).1, fullFrames_of_le hl,
        restOf_of_le hl]
      simp
    · rw [restOf_of_le hlb, hdrop, (ih).2, restOf_of_le hl]

/-! ## Facts about `chunksFrom` -/

lemma chunksFrom_append (fid : Nat) : ∀ (u v : List (List Nat)) (i : Nat),
    chunksFrom fid i (u ++ v) = chunksFrom fid i u ++ chunksFrom fid (i + u.length) v := by
  intro u
  induction u with
  | nil => intro v i; simp [chunksFrom]
  | cons f fs ih =>
    intro v i
    show mkUploadChunk fid i f :: chunksFrom fid (i + 1) (fs ++ v)
        = mkUploadChunk fid i f
          :: (chunksFrom fid (i + 1) fs ++ chunksFrom fid (i + (f :: fs).length) v)
    rw [ih]
    have h : i + 1 + fs.length = i + (f :: fs).length := by
      simp only [List.length_cons]
      omega
    rw [h]

lemma chunksFrom_length (fid : Nat) : ∀ (fs : List (List Nat)) (i : Nat),
    (chunksFrom fid i fs).length = fs.length := by
  intro fs
  induction fs with
  | nil => intro i; rfl
  | cons f t ih => intro i; simp [chunksFrom, ih]

lemma chunksFrom_map_data (fid : Nat) : ∀ (fs : List (List Nat)) (i : Nat),
    (chunksFrom fid i fs).map Chunk.data = fs := by
  intro fs
  induction fs with
  | nil => intro i; rfl
  | cons f t ih => intro i; simp [chunksFrom, mkUploadChunk, ih]

lemma chunksFrom_map_position (fid : Nat) : ∀ (fs : List (List Nat)) (i : Nat),
    (chunksFrom fid i fs).map Chunk.position = List.range' i fs.length := by
  intro fs
  induction fs with
  | nil => intro i; rfl
  | cons f t ih =>
    intro i
    simp only [chunksFrom, List.map_cons, mkUploadChunk, ih, List.length_cons]
    rw [List.range'_succ]

lemma mem_chunksFrom_fields (fid : Nat) : ∀ (fs : List (List Nat)) (i : Nat)
    (c : Chunk), c ∈ chunksFrom fid i fs →
    c.status = "" ∧ c.telegramFileID = "" ∧ c.fileID = fid
    ∧ c.data ∈ fs ∧ c.size = c.data.length := by
  intro fs
  induction fs with
  | nil => intro i c h; simp [chunksFrom] at h
  | cons f t ih =>
    intro i c h
    rcases List.mem_cons.mp h with h1 | h2
    · subst h1; simp [mkUploadChunk]
    · have := ih (i + 1) c h2
      exact ⟨this.1, this.2.1, this.2.2.1, List.mem_cons_of_mem _ this.2.2.2.1,
        this.2.2.2.2⟩

lemma chunksFrom_dropLast (fid : Nat) : ∀ (fs : List (List Nat)) (i : Nat),
    (chunksFrom fid i fs).dropLast = chunksFrom fid i fs.dropLast := by
  intro fs
  induction fs with
  | nil => intro i; rfl
  | cons f t ih =>
    intro i
    cases t with
    | nil => rfl
    | cons g u =>
      have h2 : (f :: g :: u : List (List Nat)).dropLast = f :: (g :: u).dropLast :=
        List.dropLast_cons₂
      rw [h2]
      show (mkUploadChunk fid i f :: chunksFrom fid (i + 1) (g :: u)).dropLast
          = mkUploadChunk fid i f :: chunksFrom fid (i + 1) (g :: u).dropLast
      rw [← ih (i + 1)]
      show (mkUploadChunk fid i f :: mkUploadChunk fid (i + 1) g
          :: chunksFrom fid (i + 1 + 1) u).dropLast
          = mkUploadChunk fid i f
            :: (mkUploadChunk fid (i + 1) g :: chunksFrom fid (i + 1 + 1) u).dropLast
      exact List.dropLast_cons₂

lemma chunksFrom_getLast? (fid : Nat) : ∀ (fs : List (List Nat)) (i : Nat),
    (chunksFrom fid i fs).getLast?.map Chunk.data = fs.getLast? := by
  intro fs i
  have h := chunksFrom_map_data fid fs i
  calc (chunksFrom fid i fs).getLast?.map Chunk.data
      = ((chunksFrom fid i fs).map Chunk.data).getLast? :=
        (List.getLast?_map _ _).symm
    _ = fs.getLast? := by rw [h]

/-! ## The framing loop in normal form -/

/-- Normal form of the framing loop: starting from an accumulator shorter
than `ChunkSize`, processing `data` pushes exactly the full
`ChunkSize`-frames of `accumulator ++ data`, numbered consecutively, and
leaves the remainder in the accumulator. -/
lemma frameData_spec_aux (fid : Nat) : ∀ (n : Nat) (data chunk : List Nat)
    (q : List Chunk) (i : Nat), data.length ≤ n → chunk.length < ChunkSize →
    frameData fid ⟨chunk, q, i⟩ data =
      ⟨restOf (chunk ++ data),
       q ++ chunksFrom fid i (fullFrames (chunk ++ data)),
       i + (fullFrames (chunk ++ data)).length⟩ := by
  intro n
  induction n with
  | zero =>
    intro data chunk q i hlen hc
    have hdata : data = [] := List.length_eq_zero.mp (Nat.le_zero.mp hlen)
    subst hdata
    rw [frameData_nil, List.append_nil, fullFrames_of_lt hc, restOf_of_lt hc]
    simp [chunksFrom]
  | succ n ih =>
    intro data chunk q i hlen hc
    by_cases hemp : data.isEmpty
    · have hdata : data = [] := by simpa [List.isEmpty_iff] using hemp
      subst hdata
      rw [frameData_nil, List.append_nil, fullFrames_of_lt hc, restOf_of_lt hc]
      simp [chunksFrom]
    · rw [frameData, if_neg (by simpa using hemp)]
      have hdpos : 0 < data.length := by
        cases data with
        | nil => simp at hemp
        | cons a l => simp
      by_cases hsp : ChunkSize - chunk.length > data.length
      · rw [if_pos hsp]
        have hlt : (chunk ++ data).length < ChunkSize := by
          rw [List.length_append]; omega
        rw [fullFrames_of_lt hlt, restOf_of_lt hlt]
        simp [chunksFrom]
      · rw [if_neg hsp]
        have hle : ChunkSize - chunk.length ≤ data.length := Nat.le_of_not_lt hsp
        have hsppos : 0 < ChunkSize - chunk.length := by omega
        have hlen' : (data.drop (ChunkSize - chunk.length)).length ≤ n := by
          rw [List.length_drop]; omega
        rw [ih _ [] _ _ hlen' (by simpa using chunkSize_pos)]
        have hCle : ChunkSize ≤ (chunk ++ data).length := by
          rw [List.length_append]; omega
        have htake : (chunk ++ data).take ChunkSize
            = chunk ++ data.take (ChunkSize - chunk.length) := by
          rw [List.take_append_eq_append_take,
            List.take_of_length_le (Nat.le_of_lt hc)]
        have hdrop : (chunk ++ data).drop ChunkSize
            = data.drop (ChunkSize - chunk.length) := by
          rw [List.drop_append_eq_append_drop,
            List.drop_eq_nil_of_le (Nat.le_of_lt hc), List.nil_append]
        rw [fullFrames_of_le hCle, htake, hdrop, restOf_of_le hCle, hdrop]
        simp only [List.nil_append, chunksFrom, List.length_cons]
        have hidx : i + 1 + (fullFrames (List.drop (ChunkSize - chunk.length) data)).length
            = i + ((fullFrames (List.drop (ChunkSize - chunk.length) data)).length + 1) := by
          omega
        rw [hidx]
        simp

/-- `frameData_spec_aux` packaged over a whole state. -/
lemma frameData_spec (fid : Nat) (st : FramerState) (data : List Nat)
    (hc : st.chunk.length < ChunkSize) :
    frameData fid st data =
      ⟨restOf (st.chunk ++ data),
       st.queue ++ chunksFrom fid st.chunkIndex (fullFrames (st.chunk ++ data)),
       st.chunkIndex + (fullFrames (st.chunk ++ data)).length⟩ := by
  have h := frameData_spec_aux fid data.length data st.chunk st.queue st.chunkIndex
    (Nat.le_refl _) hc
  exact h

lemma frameData_chunk_lt (fid : Nat) (st : FramerState) (data : List Nat)
    (hc : st.chunk.length < ChunkSize) :
    (frameData fid st data).chunk.length < ChunkSize := by
  rw [frameData_spec fid st data hc]
  exact restOf_length_lt _

/-- Processing two reads in sequence equals processing their concatenation:
the framing loop is insensitive to read boundaries. -/
lemma frameData_append (fid : Nat) (st : FramerState) (a b : List Nat)
    (hc : st.chunk.length < ChunkSize) :
    frameData fid st (a ++ b) = frameData fid (frameData fid st a) b := by
  rw [frameData_spec fid st a hc, frameData_spec fid st (a ++ b) hc,
    frameData_spec fid _ b (by simpa using restOf_length_lt (st.chunk ++ a))]
  have hkey := fullFrames_restOf_append b (st.chunk ++ a)
  simp only [FramerState.mk.injEq]
  refine ⟨?_, ?_, ?_⟩
  · rw [← List.append_assoc, hkey.2]
  · rw [← List.append_assoc, hkey.1, chunksFrom_append, List.append_assoc,
      fullFrames_length]
  · rw [← List.append_assoc, hkey.1, List.length_append, fullFrames_length,
      Nat.add_assoc]

/-- The read loop equals one framing pass over the concatenation of all
delivered reads, with `total` counting the delivered bytes. -/
lemma readLoop_spec (fid : Nat) : ∀ (reads : List (List Nat)) (st : FramerState)
    (t : Nat), st.chunk.length < ChunkSize →
    readLoop fid st t reads
      = (frameData fid st reads.flatten, t + reads.flatten.length) := by
  intro reads
  induction reads with
  | nil =>
    intro st t hc
    simp [readLoop, frameData_nil]
  | cons r rs ih =>
    intro st t hc
    rw [readLoop, ih (frameData fid st r) (t + r.length) (frameData_chunk_lt fid st r hc)]
    rw [List.flatten_cons, frameData_append fid st r rs.flatten hc, List.length_append]
    rw [Nat.add_assoc]

/-- A `"file"` part that ends cleanly pushes exactly the frames of the
concatenated stream, with positions starting at 1. -/
lemma processPart_clean (fid : Nat) (p : Part) (hp : p.readErr = false) :
    processPart fid p = (chunksFrom fid 1 (frames p.reads.flatten),
      p.reads.flatten.length, true) := by
  rw [processPart, readLoop_spec fid p.reads ⟨[], [], 1⟩ 0 (by simpa using chunkSize_pos)]
  rw [frameData_spec fid ⟨[], [], 1⟩ p.reads.flatten (by simpa using chunkSize_pos)]
  simp only [List.nil_append, Nat.zero_add, hp, Bool.false_eq_true, if_false]
  by_cases hr : restOf p.reads.flatten = []
  · rw [if_neg (by simp [hr])]
    simp [frames, hr]
  · rw [if_pos (by simpa [List.length_pos] using hr)]
    simp only [frames, if_neg hr, chunksFrom_append, chunksFrom_length]
    simp [chunksFrom]

/-- A `"file"` part whose stream fails mid-read pushes exactly the full
frames of the bytes delivered so far; the accumulator's tail bytes are
never pushed. -/
lemma processPart_err (fid : Nat) (p : Part) (hp : p.readErr = true) :
    processPart fid p = (chunksFrom fid 1 (fullFrames p.reads.flatten),
      p.reads.flatten.length, false) := by
  rw [processPart, readLoop_spec fid p.reads ⟨[], [], 1⟩ 0 (by simpa using chunkSize_pos)]
  rw [frameData_spec fid ⟨[], [], 1⟩ p.reads.flatten (by simpa using chunkSize_pos)]
  simp [hp]

/-! ## Facts about `frames` -/

lemma mem_of_getLast?_eq_some {α : Type} {l : List α} {a : α}
    (h : l.getLast? = some a) : a ∈ l := by
  rcases List.mem_getLast?_eq_getLast (show a ∈ l.getLast? from h) with ⟨hne, he⟩
  rw [he]
  exact List.getLast_mem hne

lemma frames_length (l : List Nat) :
    (frames l).length = (l.length + ChunkSize - 1) / ChunkSize := by
  have hmod := restOf_length l
  have hC : ChunkSize = 20971520 := by norm_num [ChunkSize]
  rw [frames, List.length_append, fullFrames_length]
  by_cases hr : restOf l = []
  · have h0 : l.length % ChunkSize = 0 := by rw [← hmod, hr]; rfl
    rw [if_pos hr]
    simp only [List.length_nil]
    rw [hC] at h0 ⊢
    omega
  · have h0 : l.length % ChunkSize ≠ 0 := by
      rw [← hmod]
      simpa [List.length_eq_zero] using hr
    rw [if_neg hr]
    simp only [List.length_singleton]
    rw [hC] at h0 ⊢
    omega

lemma frames_nil : frames ([] : List Nat) = [] := by
  rw [frames, restOf_of_lt (by simpa using chunkSize_pos),
    fullFrames_of_lt (by simpa using chunkSize_pos)]
  simp

lemma length_of_mem_dropLast_frames {l f : List Nat}
    (h : f ∈ (frames l).dropLast) : f.length = ChunkSize := by
  by_cases hr : restOf l = []
  · have he : frames l = fullFrames l := by simp [frames, hr]
    rw [he] at h
    exact length_of_mem_fullFrames (List.dropLast_subset _ h)
  · have he : frames l = fullFrames l ++ [restOf l] := by simp [frames, hr]
    rw [he, List.dropLast_concat] at h
    exact length_of_mem_fullFrames h

lemma frames_getLast? {l f : List Nat} (h : (frames l).getLast? = some f) :
    f.length = l.length - ChunkSize * ((frames l).length - 1)
    ∧ 0 < f.length ∧ f.length ≤ ChunkSize := by
  have hC : ChunkSize = 20971520 := by norm_num [ChunkSize]
  have hmod := restOf_length l
  by_cases hr : restOf l = []
  · have he : frames l = fullFrames l := by simp [frames, hr]
    have h0 : l.length % ChunkSize = 0 := by rw [← hmod, hr]; rfl
    have hmem : f ∈ fullFrames l := by
      rw [he] at h
      exact mem_of_getLast?_eq_some h
    have hflen : f.length = ChunkSize := length_of_mem_fullFrames hmem
    have hne : frames l ≠ [] := by
      intro hcon
      rw [hcon] at h
      simp at h
    have hpos : 0 < (frames l).length := List.length_pos.mpr hne
    have hcount : (frames l).length = l.length / ChunkSize := by
      rw [he, fullFrames_length]
    refine ⟨?_, ?_, ?_⟩
    · rw [hflen, hcount]
      rw [hC] at h0 ⊢
      rw [hcount, hC] at hpos
      omega
    · rw [hflen]; exact chunkSize_pos
    · rw [hflen]
  · have he : frames l = fullFrames l ++ [restOf l] := by simp [frames, hr]
    have hf : f = restOf l := by
      rw [he, List.getLast?_concat] at h
      exact (Option.some.injEq _ _ ▸ h).symm
    have h0 : l.length % ChunkSize ≠ 0 := by
      rw [← hmod]
      simpa [List.length_eq_zero] using hr
    have hcount : (frames l).length = l.length / ChunkSize + 1 := by
      rw [he, List.length_append, fullFrames_length, List.length_singleton]
    refine ⟨?_, ?_, ?_⟩
    · rw [hf, hmod, hcount]
      rw [hC] at h0 ⊢
      omega
    · rw [hf, hmod]
      rw [hC] at h0 ⊢
      omega
    · rw [hf, hmod]
      rw [hC] at h0 ⊢
      omega

/-- C1: for every byte stream delivered to the `"file"` part of
`handleUpload` under any schedule of read sizes, the framing loop enqueues
exactly `ceil(L / ChunkSize)` chunks where `L` is the stream length; every
chunk except the last has `Data` of length exactly `ChunkSize`; the last
chunk has length `L - ChunkSize * (ceil(L / ChunkSize) - 1)`, which is in
`[1, ChunkSize]`; and a zero-byte stream enqueues zero chunks. -/
theorem framer_emits_ceil_chunks (fid : Nat) (reads : List (List Nat)) :
    (enqueuedChunks fid reads).length
      = (reads.flatten.length + ChunkSize - 1) / ChunkSize
    ∧ (∀ c ∈ (enqueuedChunks fid reads).dropLast, c.data.length = ChunkSize)
    ∧ (∀ c : Chunk, (enqueuedChunks fid reads).getLast? = some c →
        c.data.length
          = reads.flatten.length
            - ChunkSize * ((enqueuedChunks fid reads).length - 1)
        ∧ 0 < c.data.length ∧ c.data.length ≤ ChunkSize)
    ∧ (reads.flatten.length = 0 → enqueuedChunks fid reads = []) := by
  have he : enqueuedChunks fid reads = chunksFrom fid 1 (frames reads.flatten) := by
    rw [enqueuedChunks, processPart_clean _ _ rfl]
  refine ⟨?_, ?_, ?_, ?_⟩
  · rw [he, chunksFrom_length, frames_length]
  · intro c hc
    rw [he, chunksFrom_dropLast] at hc
    have hfields := mem_chunksFrom_fields fid _ _ c hc
    exact length_of_mem_dropLast_frames hfields.2.2.2.1
  · intro c hcl
    rw [he] at hcl
    have hmap := chunksFrom_getLast? fid (frames reads.flatten) 1
    rw [hcl] at hmap
    have hlast := frames_getLast? hmap.symm
    rw [he, chunksFrom_length]
    exact hlast
  · intro h0
    have hflat : reads.flatten = [] := List.length_eq_zero.mp h0
    rw [he, hflat, frames_nil]
    rfl

/-- Witness for C1 at a concrete three-byte stream. -/
theorem framer_emits_ceil_chunks_witness :
    (enqueuedChunks 1 [[5, 6, 7]]).length = 1
    ∧ (mkUploadChunk 1 1 [5, 6, 7]).data.length
        = ([[5, 6, 7]] : List (List Nat)).flatten.length
          - ChunkSize * ((enqueuedChunks 1 [[5, 6, 7]]).length - 1)
    ∧ 0 < (mkUploadChunk 1 1 [5, 6, 7]).data.length := by
  have h := framer_emits_ceil_chunks 1 [[5, 6, 7]]
  have he : enqueuedChunks 1 [[5, 6, 7]] = [mkUploadChunk 1 1 [5, 6, 7]] := by
    rw [enqueuedChunks, processPart_clean _ _ rfl]
    have hflat : ([[5, 6, 7]] : List (List Nat)).flatten = [5, 6, 7] := by simp
    rw [hflat]
    have h3 : ([5, 6, 7] : List Nat).length < ChunkSize := by norm_num [ChunkSize]
    rw [frames, restOf_of_lt h3, fullFrames_of_lt h3]
    simp [chunksFrom]
  have hlast := h.2.2.1 (mkUploadChunk 1 1 [5, 6, 7]) (by rw [he]; rfl)
  refine ⟨?_, hlast.1, hlast.2.1⟩
  rw [h.1]
  norm_num [ChunkSize]

/-! ## Characterising `partsLoop` and `handleUpload` -/

lemma partsLoop_skip (fid : Nat) (ps : List Part) (npe : Bool) :
    ∀ (pre : List Part) (s : Store) (queued : List Chunk) (ops : List DbOp),
    (∀ p ∈ pre, ¬ p.formName = "file") →
    partsLoop fid s queued ops (pre ++ ps) npe
      = partsLoop fid s queued ops ps npe := by
  intro pre
  induction pre with
  | nil => intro s queued ops _; rfl
  | cons p t ih =>
    intro s queued ops h
    have hp : ¬ p.formName = "file" := h p (List.mem_cons_self p t)
    rw [List.cons_append]
    show (if p.formName = "file" then _ else partsLoop fid s queued ops (t ++ ps) npe)
        = partsLoop fid s queued ops ps npe
    rw [if_neg hp]
    exact ih s queued ops fun q hq => h q (List.mem_cons_of_mem _ hq)

lemma partsLoop_cons_file (fid : Nat) (s : Store) (queued : List Chunk)
    (ops : List DbOp) (p : Part) (ps : List Part) (npe : Bool)
    (hp : p.formName = "file") (hclean : p.readErr = false) :
    partsLoop fid s queued ops (p :: ps) npe =
      partsLoop fid
        (updateFileMetadata s fid p.fileName p.reads.flatten.length
          ((p.reads.flatten.length + ChunkSize - 1) / ChunkSize))
        (queued ++ chunksFrom fid 1 (frames p.reads.flatten))
        (ops ++ [DbOp.updateMeta fid p.fileName p.reads.flatten.length
          ((p.reads.flatten.length + ChunkSize - 1) / ChunkSize)])
        ps npe := by
  show (if p.formName = "file" then _ else _) = _
  rw [if_pos hp, processPart_clean fid p hclean]
  rfl

lemma partsLoop_cons_file_err (fid : Nat) (s : Store) (queued : List Chunk)
    (ops : List DbOp) (p : Part) (ps : List Part) (npe : Bool)
    (hp : p.formName = "file") (herr : p.readErr = true) :
    partsLoop fid s queued ops (p :: ps) npe
      = ⟨s, queued ++ chunksFrom fid 1 (fullFrames p.reads.flatten), ops,
          UploadResult.otherError⟩ := by
  show (if p.formName = "file" then _ else _) = _
  rw [if_pos hp, processPart_err fid p herr]
  rfl

lemma handleUpload_unauthorized (s : Store) (req : Request)
    (h : validateAPIKey s req = none) :
    handleUpload s req = ⟨s, [], [], UploadResult.unauthorized⟩ := by
  rw [handleUpload, h]

lemma handleUpload_badCT (s : Store) (req : Request) (k : String)
    (h : validateAPIKey s req = some k)
    (hct : hasPrefix req.contentType ("multipart/form-data") = false) :
    handleUpload s req = ⟨s, [], [], UploadResult.badRequest⟩ := by
  rw [handleUpload, h]
  simp [hct]

lemma handleUpload_parseFail (s : Store) (req : Request) (k : String)
    (h : validateAPIKey s req = some k)
    (hct : hasPrefix req.contentType ("multipart/form-data") = true)
    (hpf : req.parseOk = false) :
    handleUpload s req = ⟨s, [], [], UploadResult.otherError⟩ := by
  rw [handleUpload, h]
  simp [hct, hpf]

lemma handleUpload_emptyBoundary (s : Store) (req : Request) (k : String)
    (h : validateAPIKey s req = some k)
    (hct : hasPrefix req.contentType ("multipart/form-data") = true)
    (hparse : req.parseOk = true) (hb : req.boundary = "") :
    handleUpload s req = ⟨(createNewFile s ("") 0 k 0).1, [],
      [DbOp.createFile ("") 0 k 0], UploadResult.otherError⟩ := by
  rw [handleUpload, h]
  simp [hct, hparse, hb]

lemma handleUpload_run (s : Store) (req : Request) (k : String)
    (h : validateAPIKey s req = some k)
    (hct : hasPrefix req.contentType ("multipart/form-data") = true)
    (hparse : req.parseOk = true) (hb : ¬ req.boundary = "") :
    handleUpload s req
      = partsLoop (s.files.length + 1) (createNewFile s ("") 0 k 0).1 []
          [DbOp.createFile ("") 0 k 0] req.body.parts req.body.nextPartErr := by
  rw [handleUpload, h]
  simp [hct, hparse, hb, createNewFile]

lemma validateAPIKey_multipartRequest (s : Store) (key : String)
    (parts : List Part) (hk : ¬ key = "") (hkey : s.keys.contains key = true) :
    validateAPIKey s (multipartRequest key parts) = some key := by
  rw [validateAPIKey]
  simp only [multipartRequest]
  simp [hk]
  simpa using hkey

lemma multipartRequest_ct (key : String) (parts : List Part) :
    hasPrefix (multipartRequest key parts).contentType ("multipart/form-data")
      = true := by
  show hasPrefix ("multipart/form-data; boundary=b") ("multipart/form-data") = true
  decide

lemma partsLoop_skip_all (fid : Nat) : ∀ (ps : List Part) (s : Store)
    (queued : List Chunk) (ops : List DbOp),
    (∀ p ∈ ps, ¬ p.formName = "file") →
    partsLoop fid s queued ops ps false = ⟨s, queued, ops, UploadResult.accepted⟩ := by
  intro ps
  induction ps with
  | nil => intro s queued ops _; rfl
  | cons p t ih =>
    intro s queued ops h
    show (if p.formName = "file" then _ else partsLoop fid s queued ops t false) = _
    rw [if_neg (h p (List.mem_cons_self p t))]
    exact ih s queued ops fun q hq => h q (List.mem_cons_of_mem _ hq)

lemma map_update_of_fresh (fid : Nat) (fn : String) (sz tc : Nat) :
    ∀ (l : List FileRec), (∀ f ∈ l, ¬ f.id = fid) →
    l.map (fun f =>
      if f.id = fid then
        { f with fileName := fn, size := sz, totalChunks := tc,
                 status := "completed" }
      else f) = l := by
  intro l
  induction l with
  | nil => intro _; rfl
  | cons a t ih =>
    intro h
    rw [List.map_cons, if_neg (h a (List.mem_cons_self a t)),
      ih fun q hq => h q (List.mem_cons_of_mem _ hq)]

/-- After the fresh placeholder row was appended, the finalize mutation
rewrites exactly that row. -/
lemma updateFileMetadata_fresh (s : Store) (rec : FileRec) (fn : String)
    (sz tc : Nat) (h : ∀ f ∈ s.files, ¬ f.id = rec.id) :
    updateFileMetadata { s with files := s.files ++ [rec] } rec.id fn sz tc
      = { s with files := s.files ++
          [{ rec with fileName := fn, size := sz, totalChunks := tc, status := "completed" }] } := by
  rw [updateFileMetadata]
  simp only [List.map_append, map_update_of_fresh rec.id fn sz tc s.files h,
    List.map_cons, List.map_nil, if_pos]

/-- Master characterisation: a valid upload whose body holds exactly one
`"file"` part (with arbitrary non-`"file"` parts around it) that streams
`reads` and ends cleanly.  The call answers `Accepted`, enqueues exactly the
frames of the concatenated stream at positions 1, 2, …, performs one
creation and one finalize write, and leaves the file row completed with the
part's name, the observed size, and the ceiling chunk count. -/
lemma handleUpload_oneFilePart (s : Store) (key fn : String)
    (reads : List (List Nat)) (pre post : List Part)
    (hk : ¬ key = "") (hkey : s.keys.contains key = true)
    (hpre : ∀ p ∈ pre, ¬ p.formName = "file")
    (hpost : ∀ p ∈ post, ¬ p.formName = "file")
    (hfresh : ∀ f ∈ s.files, ¬ f.id = s.files.length + 1) :
    handleUpload s (multipartRequest key
        (pre ++ { formName := "file", fileName := fn, reads := reads,
                  readErr := false } :: post))
      = ⟨{ s with files := s.files ++
            [{ id := s.files.length + 1, fileName := fn,
               size := reads.flatten.length,
               totalChunks := (reads.flatten.length + ChunkSize - 1) / ChunkSize,
               status := "completed", ownerAPIKey := key }] },
          chunksFrom (s.files.length + 1) 1 (frames reads.flatten),
          [DbOp.createFile ("") 0 key 0,
           DbOp.updateMeta (s.files.length + 1) fn reads.flatten.length
             ((reads.flatten.length + ChunkSize - 1) / ChunkSize)],
          UploadResult.accepted⟩ := by
  rw [handleUpload_run s _ key
      (validateAPIKey_multipartRequest s key _ hk hkey)
      (multipartRequest_ct key _) rfl (by simp [multipartRequest])]
  show partsLoop (s.files.length + 1) (createNewFile s ("") 0 key 0).1 []
      [DbOp.createFile ("") 0 key 0] (pre ++ _ :: post) false = _
  rw [partsLoop_skip _ _ _ pre _ _ _ hpre,
    partsLoop_cons_file _ _ _ _ _ _ _ rfl rfl,
    partsLoop_skip_all _ post _ _ _ hpost]
  have hupd := updateFileMetadata_fresh s
    { id := s.files.length + 1, fileName := "", size := 0, totalChunks := 0,
      status := "uploading", ownerAPIKey := key }
    fn reads.flatten.length ((reads.flatten.length + ChunkSize - 1) / ChunkSize)
    hfresh
  show ⟨updateFileMetadata { s with files := s.files ++ [_] } (s.files.length + 1)
      fn reads.flatten.length ((reads.flatten.length + ChunkSize - 1) / ChunkSize),
      [] ++ chunksFrom (s.files.length + 1) 1 (frames reads.flatten), _, _⟩
      = (_ : UploadOutcome)
  rw [hupd]
  simp

lemma frames_small {l : List Nat} (h1 : ¬ l = []) (h2 : l.length < ChunkSize) :
    frames l = [l] := by
  rw [frames, restOf_of_lt h2, fullFrames_of_lt h2, if_neg h1]
  simp

/-- C6: after a successful upload of one `"file"` part carrying `L` bytes,
the finalize mutation sets the file row's name to the part's filename, size
to `L`, chunk count to `ceil(L / ChunkSize)` and status to `completed`; in
particular a 0-byte stream is finalized with size 0, chunk count
`ceil(0 / ChunkSize) = 0`, and enqueues no chunk records. -/
theorem finalize_sets_metadata (s : Store) (key fn : String)
    (reads : List (List Nat)) (pre post : List Part)
    (hk : ¬ key = "") (hkey : s.keys.contains key = true)
    (hpre : ∀ p ∈ pre, ¬ p.formName = "file")
    (hpost : ∀ p ∈ post, ¬ p.formName = "file")
    (hfresh : ∀ f ∈ s.files, ¬ f.id = s.files.length + 1) :
    (handleUpload s (multipartRequest key
        (pre ++ { formName := "file", fileName := fn, reads := reads,
                  readErr := false } :: post))).store.files
      = s.files ++
        [{ id := s.files.length + 1, fileName := fn,
           size := reads.flatten.length,
           totalChunks := (reads.flatten.length + ChunkSize - 1) / ChunkSize,
           status := "completed", ownerAPIKey := key }]
    ∧ (reads.flatten.length = 0 →
        (handleUpload s (multipartRequest key
          (pre ++ { formName := "file", fileName := fn, reads := reads,
                    readErr := false } :: post))).queued = []
        ∧ (reads.flatten.length + ChunkSize - 1) / ChunkSize = 0) := by
  rw [handleUpload_oneFilePart s key fn reads pre post hk hkey hpre hpost hfresh]
  refine ⟨rfl, fun h0 => ⟨?_, ?_⟩⟩
  · show chunksFrom (s.files.length + 1) 1 (frames reads.flatten) = []
    rw [List.length_eq_zero.mp h0, frames_nil]
    rfl
  · rw [h0]
    norm_num [ChunkSize]

/-- Witness for C6: a 0-byte upload into a store holding one key. -/
theorem finalize_sets_metadata_witness :
    (handleUpload oneKeyStore (multipartRequest ("k")
        ([] ++ { formName := "file", fileName := "f.txt", reads := [],
                 readErr := false } :: []))).store.files
      = [{ id := 1, fileName := "f.txt", size := 0, totalChunks := 0,
           status := "completed", ownerAPIKey := "k" }]
    ∧ (handleUpload oneKeyStore (multipartRequest ("k")
        ([] ++ { formName := "file", fileName := "f.txt", reads := [],
                 readErr := false } :: []))).queued = [] := by
  have h := finalize_sets_metadata oneKeyStore "k" "f.txt" [] [] []
    (by decide) (by decide) (by simp) (by simp) (by simp [oneKeyStore])
  refine ⟨?_, (h.2 rfl).1⟩
  rw [h.1]
  norm_num [oneKeyStore, ChunkSize]

/-- C3 (amended): for an upload whose body holds exactly one part named
`"file"` (ended cleanly), the positions of the enqueued chunks are exactly
`1, 2, …, totalChunks` of the completed file row — contiguous, no gaps, no
duplicates. -/
theorem positions_contiguous_for_single_file_part (s : Store) (key fn : String)
    (reads : List (List Nat)) (pre post : List Part)
    (hk : ¬ key = "") (hkey : s.keys.contains key = true)
    (hpre : ∀ p ∈ pre, ¬ p.formName = "file")
    (hpost : ∀ p ∈ post, ¬ p.formName = "file")
    (hfresh : ∀ f ∈ s.files, ¬ f.id = s.files.length + 1) :
    (handleUpload s (multipartRequest key
        (pre ++ { formName := "file", fileName := fn, reads := reads,
                  readErr := false } :: post))).queued.map Chunk.position
      = List.range' 1 ((reads.flatten.length + ChunkSize - 1) / ChunkSize)
    ∧ (handleUpload s (multipartRequest key
        (pre ++ { formName := "file", fileName := fn, reads := reads,
                  readErr := false } :: post))).store.files.getLast?
      = some { id := s.files.length + 1, fileName := fn,
               size := reads.flatten.length,
               totalChunks := (reads.flatten.length + ChunkSize - 1) / ChunkSize,
               status := "completed", ownerAPIKey := key } := by
  rw [handleUpload_oneFilePart s key fn reads pre post hk hkey hpre hpost hfresh]
  constructor
  · show (chunksFrom (s.files.length + 1) 1 (frames reads.flatten)).map Chunk.position = _
    rw [chunksFrom_map_position, frames_length]
  · show (s.files ++ [_]).getLast? = _
    rw [List.getLast?_concat]

/-- Witness for C3 (amended) at a concrete one-byte upload. -/
theorem positions_contiguous_for_single_file_part_witness :
    (handleUpload oneKeyStore (multipartRequest ("k")
        ([] ++ { formName := "file", fileName := "a", reads := [[5]],
                 readErr := false } :: []))).queued.map Chunk.position
      = List.range' 1 1 := by
  have h := positions_contiguous_for_single_file_part oneKeyStore "k" "a" [[5]]
    [] [] (by decide) (by decide) (by simp) (by simp) (by simp [oneKeyStore])
  rw [h.1]
  norm_num [ChunkSize]

/-- C3 (counterexample): a multipart body with two parts named `"file"`
produces a completed file whose enqueued chunk positions are `[1, 1]` —
duplicated, not the claimed duplicate-free `{1 .. TotalChunks}`. -/
theorem duplicate_positions_with_two_file_parts :
    (handleUpload oneKeyStore (multipartRequest ("k")
        [{ formName := "file", fileName := "a", reads := [[5]], readErr := false },
         { formName := "file", fileName := "b", reads := [[7]], readErr := false }])).result
      = UploadResult.accepted
    ∧ (handleUpload oneKeyStore (multipartRequest ("k")
        [{ formName := "file", fileName := "a", reads := [[5]], readErr := false },
         { formName := "file", fileName := "b", reads := [[7]], readErr := false }])).store.files.map
        FileRec.status = ["completed"]
    ∧ (handleUpload oneKeyStore (multipartRequest ("k")
        [{ formName := "file", fileName := "a", reads := [[5]], readErr := false },
         { formName := "file", fileName := "b", reads := [[7]], readErr := false }])).store.files.map
        FileRec.totalChunks = [1]
    ∧ (handleUpload oneKeyStore (multipartRequest ("k")
        [{ formName := "file", fileName := "a", reads := [[5]], readErr := false },
         { formName := "file", fileName := "b", reads := [[7]], readErr := false }])).queued.map
        Chunk.position = [1, 1]
    ∧ ¬ ((handleUpload oneKeyStore (multipartRequest ("k")
        [{ formName := "file", fileName := "a", reads := [[5]], readErr := false },
         { formName := "file", fileName := "b", reads := [[7]], readErr := false }])).queued.map
        Chunk.position).Nodup := by
  have hceil : ((1 : Nat) + ChunkSize - 1) / ChunkSize = 1 := by
    norm_num [ChunkSize]
  have h : handleUpload oneKeyStore (multipartRequest ("k")
      [{ formName := "file", fileName := "a", reads := [[5]], readErr := false },
       { formName := "file", fileName := "b", reads := [[7]], readErr := false }])
      = ⟨{ keys := ["k"],
           files := [{ id := 1, fileName := "b", size := 1, totalChunks := 1, status := "completed", ownerAPIKey := "k" }] },
          [mkUploadChunk 1 1 [5], mkUploadChunk 1 1 [7]],
          [DbOp.createFile ("") 0 "k" 0, DbOp.updateMeta 1 "a" 1 1,
           DbOp.updateMeta 1 "b" 1 1],
          UploadResult.accepted⟩ := by
    rw [handleUpload_run oneKeyStore _ "k"
        (validateAPIKey_multipartRequest oneKeyStore "k" _ (by decide) (by decide))
        (multipartRequest_ct "k" _) rfl (by simp [multipartRequest])]
    show partsLoop 1 (createNewFile oneKeyStore ("") 0 "k" 0).1 []
        [DbOp.createFile ("") 0 "k" 0]
        [{ formName := "file", fileName := "a", reads := [[5]], readErr := false },
         { formName := "file", fileName := "b", reads := [[7]], readErr := false }] false = _
    rw [partsLoop_cons_file _ _ _ _ _ _ _ rfl rfl]
    rw [partsLoop_cons_file _ _ _ _ _ _ _ rfl rfl]
    rw [partsLoop_skip_all 1 [] _ _ _ (by simp)]
    have hfr5 : frames ([5] : List Nat) = [[5]] :=
      frames_small (by simp) (by norm_num [ChunkSize])
    have hfr7 : frames ([7] : List Nat) = [[7]] :=
      frames_small (by simp) (by norm_num [ChunkSize])
    simp only [List.flatten_cons, List.flatten_nil, List.append_nil, hfr5, hfr7]
    simp [createNewFile, oneKeyStore, updateFileMetadata, chunksFrom,
      mkUploadChunk, hceil]
    exact Nat.div_self chunkSize_pos
  rw [h]
  refine ⟨rfl, rfl, rfl, rfl, by decide⟩

/-- C5 (amended): a successful upload whose body holds exactly one part
named `"file"` (ended cleanly) enqueues exactly
`ceil(observedSize / ChunkSize)` chunks (0 for an empty stream) and performs
exactly one File-creation write followed by exactly one File-finalize
write. -/
theorem single_file_part_write_counts (s : Store) (key fn : String)
    (reads : List (List Nat)) (pre post : List Part)
    (hk : ¬ key = "") (hkey : s.keys.contains key = true)
    (hpre : ∀ p ∈ pre, ¬ p.formName = "file")
    (hpost : ∀ p ∈ post, ¬ p.formName = "file")
    (hfresh : ∀ f ∈ s.files, ¬ f.id = s.files.length + 1) :
    (handleUpload s (multipartRequest key
        (pre ++ { formName := "file", fileName := fn, reads := reads,
                  readErr := false } :: post))).result = UploadResult.accepted
    ∧ (handleUpload s (multipartRequest key
        (pre ++ { formName := "file", fileName := fn, reads := reads,
                  readErr := false } :: post))).queued.length
      = (reads.flatten.length + ChunkSize - 1) / ChunkSize
    ∧ (handleUpload s (multipartRequest key
        (pre ++ { formName := "file", fileName := fn, reads := reads,
                  readErr := false } :: post))).ops
      = [DbOp.createFile ("") 0 key 0,
         DbOp.updateMeta (s.files.length + 1) fn reads.flatten.length
           ((reads.flatten.length + ChunkSize - 1) / ChunkSize)] := by
  rw [handleUpload_oneFilePart s key fn reads pre post hk hkey hpre hpost hfresh]
  refine ⟨rfl, ?_, rfl⟩
  show (chunksFrom (s.files.length + 1) 1 (frames reads.flatten)).length = _
  rw [chunksFrom_length, frames_length]

/-- Witness for C5 (amended) at a concrete one-byte upload. -/
theorem single_file_part_write_counts_witness :
    (handleUpload oneKeyStore (multipartRequest ("k")
        ([] ++ { formName := "file", fileName := "a", reads := [[9]],
                 readErr := false } :: []))).result = UploadResult.accepted
    ∧ (handleUpload oneKeyStore (multipartRequest ("k")
        ([] ++ { formName := "file", fileName := "a", reads := [[9]],
                 readErr := false } :: []))).queued.length = 1 := by
  have h := single_file_part_write_counts oneKeyStore "k" "a" [[9]] [] []
    (by decide) (by decide) (by simp) (by simp) (by simp [oneKeyStore])
  refine ⟨h.1, ?_⟩
  rw [h.2.1]
  norm_num [ChunkSize]

/-- C5 (counterexample): a multipart body containing no part named `"file"`
still yields `Accepted`, yet performs a creation write and no finalize write
at all — not the claimed exactly-one finalize — and the file row stays
`uploading`. -/
theorem no_finalize_without_file_part :
    (handleUpload oneKeyStore (multipartRequest ("k") [])).result
      = UploadResult.accepted
    ∧ (handleUpload oneKeyStore (multipartRequest ("k") [])).ops
      = [DbOp.createFile ("") 0 "k" 0]
    ∧ (handleUpload oneKeyStore (multipartRequest ("k") [])).store.files.map
        FileRec.status = ["uploading"] := by
  have h : handleUpload oneKeyStore (multipartRequest ("k") [])
      = ⟨(createNewFile oneKeyStore ("") 0 "k" 0).1, [],
          [DbOp.createFile ("") 0 "k" 0], UploadResult.accepted⟩ := by
    rw [handleUpload_run oneKeyStore _ "k"
        (validateAPIKey_multipartRequest oneKeyStore "k" _ (by decide) (by decide))
        (multipartRequest_ct "k" _) rfl (by simp [multipartRequest])]
    rfl
  rw [h]
  exact ⟨rfl, rfl, rfl⟩

/-- C4 (amended): unauthorized requests (missing or unknown API key), and
requests whose Content-Type does not start with `multipart/form-data`
(including an unparsable media type), are rejected synchronously with the
corresponding error and no File record is created; but a missing `boundary`
parameter is rejected only after the File record was created (and a body
with no `"file"` part is not rejected at all, see the C5 analysis). -/
theorem sync_rejection_before_file_creation (s : Store) (req : Request) :
    (validateAPIKey s req = none →
      handleUpload s req = ⟨s, [], [], UploadResult.unauthorized⟩)
    ∧ (∀ k, validateAPIKey s req = some k →
        hasPrefix req.contentType ("multipart/form-data") = false →
        handleUpload s req = ⟨s, [], [], UploadResult.badRequest⟩)
    ∧ (∀ k, validateAPIKey s req = some k →
        hasPrefix req.contentType ("multipart/form-data") = true →
        req.parseOk = false →
        handleUpload s req = ⟨s, [], [], UploadResult.otherError⟩)
    ∧ (∀ k, validateAPIKey s req = some k →
        hasPrefix req.contentType ("multipart/form-data") = true →
        req.parseOk = true → req.boundary = "" →
        (handleUpload s req).store.files.length = s.files.length + 1
        ∧ (handleUpload s req).result = UploadResult.otherError) := by
  refine ⟨fun h => handleUpload_unauthorized s req h,
    fun k h hct => handleUpload_badCT s req k h hct,
    fun k h hct hpf => handleUpload_parseFail s req k h hct hpf,
    fun k h hct hparse hb => ?_⟩
  rw [handleUpload_emptyBoundary s req k h hct hparse hb]
  constructor
  · show ((createNewFile s ("") 0 k 0).1).files.length = s.files.length + 1
    simp [createNewFile]
  · rfl

/-- Witness for C4 (amended): an unknown key is rejected with no change to
an empty store. -/
theorem sync_rejection_before_file_creation_witness :
    handleUpload { keys := [], files := [] }
        { authorization := "", xApiKey := "bad", contentType := "text/plain",
          parseOk := true, boundary := "", body := { parts := [], nextPartErr := false } }
      = ⟨{ keys := [], files := [] }, [], [], UploadResult.unauthorized⟩ := by
  exact (sync_rejection_before_file_creation { keys := [], files := [] }
    { authorization := "", xApiKey := "bad", contentType := "text/plain",
      parseOk := true, boundary := "",
      body := { parts := [], nextPartErr := false } }).1 (by decide)

/-- C4 (counterexample): a request whose Content-Type is
`multipart/form-data` without a `boundary` parameter is answered with the
raw multipart error (not `BadRequest`), and a File record *is* created —
left in status `uploading`. -/
theorem missing_boundary_creates_file_record :
    (handleUpload oneKeyStore noBoundaryRequest).result = UploadResult.otherError
    ∧ ¬ (handleUpload oneKeyStore noBoundaryRequest).result
        = UploadResult.badRequest
    ∧ (handleUpload oneKeyStore noBoundaryRequest).store.files.map
        FileRec.status = ["uploading"] := by
  have h : handleUpload oneKeyStore noBoundaryRequest
      = ⟨(createNewFile oneKeyStore ("") 0 "k" 0).1, [],
          [DbOp.createFile ("") 0 "k" 0], UploadResult.otherError⟩ := by
    apply handleUpload_emptyBoundary oneKeyStore noBoundaryRequest "k"
    · rfl
    · decide
    · rfl
    · rfl
  rw [h]
  exact ⟨rfl, by decide, rfl⟩

/-- C8 (amended): a stream read error in the *first* `"file"` part aborts
the request with an error response, performs no finalize write, and leaves
the file row in status `uploading` with the partial chunk set (the full
frames emitted before the error) still enqueued — nothing is rolled back.
(When an *earlier* `"file"` part already completed, its finalize has already
run; see the counterexample.) -/
theorem read_error_leaves_uploading (s : Store) (key fn : String)
    (reads : List (List Nat)) (pre post : List Part)
    (hk : ¬ key = "") (hkey : s.keys.contains key = true)
    (hpre : ∀ p ∈ pre, ¬ p.formName = "file") :
    handleUpload s (multipartRequest key
        (pre ++ { formName := "file", fileName := fn, reads := reads,
                  readErr := true } :: post))
      = ⟨{ s with files := s.files ++
            [{ id := s.files.length + 1, fileName := "", size := 0,
               totalChunks := 0, status := "uploading", ownerAPIKey := key }] },
          chunksFrom (s.files.length + 1) 1 (fullFrames reads.flatten),
          [DbOp.createFile ("") 0 key 0],
          UploadResult.otherError⟩ := by
  rw [handleUpload_run s _ key
      (validateAPIKey_multipartRequest s key _ hk hkey)
      (multipartRequest_ct key _) rfl (by simp [multipartRequest])]
  show partsLoop (s.files.length + 1) (createNewFile s ("") 0 key 0).1 []
      [DbOp.createFile ("") 0 key 0] (pre ++ _ :: post) false = _
  rw [partsLoop_skip _ _ _ pre _ _ _ hpre,
    partsLoop_cons_file_err _ _ _ _ _ _ _ rfl rfl]
  rfl

/-- Witness for C8 (amended): a read error after one delivered byte. -/
theorem read_error_leaves_uploading_witness :
    handleUpload oneKeyStore (multipartRequest ("k")
        ([] ++ { formName := "file", fileName := "f", reads := [[3]],
                 readErr := true } :: []))
      = ⟨{ keys := ["k"],
           files := [{ id := 1, fileName := "", size := 0, totalChunks := 0, status := "uploading", ownerAPIKey := "k" }] },
          [], [DbOp.createFile ("") 0 "k" 0], UploadResult.otherError⟩ := by
  have h := read_error_leaves_uploading oneKeyStore "k" "f" [[3]] [] []
    (by decide) (by decide) (by simp)
  rw [h]
  have hff : fullFrames (([[3]] : List (List Nat)).flatten) = [] := by
    apply fullFrames_of_lt
    norm_num [ChunkSize]
  rw [hff]
  rfl

/-- C8 (counterexample): when the read error happens in a *second* `"file"`
part, the request still aborts with an error, but a finalize mutation *was*
performed for the first part and the file row is `completed`, not
`uploading`. -/
theorem second_file_part_error_after_finalize :
    (handleUpload oneKeyStore (multipartRequest ("k")
        [{ formName := "file", fileName := "a", reads := [], readErr := false },
         { formName := "file", fileName := "b", reads := [], readErr := true }])).result
      = UploadResult.otherError
    ∧ (handleUpload oneKeyStore (multipartRequest ("k")
        [{ formName := "file", fileName := "a", reads := [], readErr := false },
         { formName := "file", fileName := "b", reads := [], readErr := true }])).ops
      = [DbOp.createFile ("") 0 "k" 0, DbOp.updateMeta 1 "a" 0 0]
    ∧ (handleUpload oneKeyStore (multipartRequest ("k")
        [{ formName := "file", fileName := "a", reads := [], readErr := false },
         { formName := "file", fileName := "b", reads := [], readErr := true }])).store.files.map
        FileRec.status = ["completed"] := by
  have h : handleUpload oneKeyStore (multipartRequest ("k")
      [{ formName := "file", fileName := "a", reads := [], readErr := false },
       { formName := "file", fileName := "b", reads := [], readErr := true }])
      = ⟨{ keys := ["k"],
           files := [{ id := 1, fileName := "a", size := 0, totalChunks := 0, status := "completed", ownerAPIKey := "k" }] },
          [], [DbOp.createFile ("") 0 "k" 0, DbOp.updateMeta 1 "a" 0 0],
          UploadResult.otherError⟩ := by
    rw [handleUpload_run oneKeyStore _ "k"
        (validateAPIKey_multipartRequest oneKeyStore "k" _ (by decide) (by decide))
        (multipartRequest_ct "k" _) rfl (by simp [multipartRequest])]
    show partsLoop 1 (createNewFile oneKeyStore ("") 0 "k" 0).1 []
        [DbOp.createFile ("") 0 "k" 0]
        [{ formName := "file", fileName := "a", reads := [], readErr := false },
         { formName := "file", fileName := "b", reads := [], readErr := true }] false = _
    rw [partsLoop_cons_file _ _ _ _ _ _ _ rfl rfl,
      partsLoop_cons_file_err _ _ _ _ _ _ _ rfl rfl]
    have hfr : frames (([] : List (List Nat)).flatten) = [] := by
      show frames [] = []
      exact frames_nil
    have hff : fullFrames (([] : List (List Nat)).flatten) = [] := by
      apply fullFrames_of_lt
      norm_num [ChunkSize]
    rw [hfr, hff]
    simp [createNewFile, oneKeyStore, updateFileMetadata, chunksFrom, ChunkSize]
  rw [h]
  exact ⟨rfl, rfl, rfl⟩

/-! ## The persistence worker -/

lemma uploaderWorker_cons_ok (send : List Nat → Option String) (addOk : Chunk → Bool)
    (c : Chunk) (cs : List Chunk) (tgid : String) (hsend : send c.data = some tgid)
    (haddOk : addOk { c with telegramFileID := tgid, data := ([] : List Nat) } = true) :
    uploaderWorker send addOk (c :: cs)
      = ({ c with telegramFileID := tgid, data := ([] : List Nat) }
          :: (uploaderWorker send addOk cs).1,
         (uploaderWorker send addOk cs).2) := by
  simp [uploaderWorker, hsend, haddOk]

lemma uploaderWorker_cons_sendFail (send : List Nat → Option String)
    (addOk : Chunk → Bool) (c : Chunk) (cs : List Chunk)
    (hsend : send c.data = none) :
    uploaderWorker send addOk (c :: cs) = ([], true) := by
  simp [uploaderWorker, hsend]

lemma uploaderWorker_cons_addFail (send : List Nat → Option String)
    (addOk : Chunk → Bool) (c : Chunk) (cs : List Chunk) (tgid : String)
    (hsend : send c.data = some tgid)
    (haddOk : addOk { c with telegramFileID := tgid, data := ([] : List Nat) } = false) :
    uploaderWorker send addOk (c :: cs) = ([], true) := by
  simp [uploaderWorker, hsend, haddOk]

lemma workerSuccess_isSome_elim (send : List Nat → Option String)
    (addOk : Chunk → Bool) (c : Chunk)
    (h : (workerSuccess send addOk c).isSome) :
    ∃ tgid, send c.data = some tgid
      ∧ addOk { c with telegramFileID := tgid, data := ([] : List Nat) } = true
      ∧ workerSuccess send addOk c
          = some { c with telegramFileID := tgid, data := ([] : List Nat) } := by
  cases hsend : send c.data with
  | none => rw [workerSuccess, hsend] at h; simp at h
  | some tgid =>
    by_cases haddOk : addOk { c with telegramFileID := tgid, data := ([] : List Nat) }
    · exact ⟨tgid, rfl, haddOk, by simp [workerSuccess, hsend, haddOk]⟩
    · rw [workerSuccess, hsend] at h
      simp only [Bool.not_eq_true] at haddOk
      simp [haddOk] at h

lemma uploaderWorker_all_ok (send : List Nat → Option String) (addOk : Chunk → Bool) :
    ∀ q : List Chunk, (∀ c ∈ q, (workerSuccess send addOk c).isSome) →
    uploaderWorker send addOk q = (q.filterMap (workerSuccess send addOk), false) := by
  intro q
  induction q with
  | nil => intro _; rfl
  | cons c cs ih =>
    intro h
    rcases workerSuccess_isSome_elim send addOk c (h c (List.mem_cons_self c cs))
      with ⟨tgid, hsend, haddOk, hws⟩
    rw [uploaderWorker_cons_ok send addOk c cs tgid hsend haddOk,
      ih fun d hd => h d (List.mem_cons_of_mem _ hd),
      List.filterMap_cons, hws]

lemma uploaderWorker_first_fail (send : List Nat → Option String)
    (addOk : Chunk → Bool) (c : Chunk)
    (hfail : workerSuccess send addOk c = none) :
    ∀ (pre : List Chunk) (post : List Chunk),
    (∀ d ∈ pre, (workerSuccess send addOk d).isSome) →
    uploaderWorker send addOk (pre ++ c :: post)
      = (pre.filterMap (workerSuccess send addOk), true) := by
  intro pre
  induction pre with
  | nil =>
    intro post _
    rw [List.nil_append, List.filterMap_nil]
    cases hsend : send c.data with
    | none => exact uploaderWorker_cons_sendFail send addOk c post hsend
    | some tgid =>
      by_cases haddOk : addOk { c with telegramFileID := tgid, data := ([] : List Nat) }
      · rw [workerSuccess, hsend] at hfail
        simp [haddOk] at hfail
      · exact uploaderWorker_cons_addFail send addOk c post tgid hsend
          (Bool.not_eq_true _ ▸ haddOk)
  | cons d t ih =>
    intro post h
    rcases workerSuccess_isSome_elim send addOk d (h d (List.mem_cons_self d t))
      with ⟨tgid, hsend, haddOk, hws⟩
    rw [List.cons_append,
      uploaderWorker_cons_ok send addOk d _ tgid hsend haddOk,
      ih post fun e he => h e (List.mem_cons_of_mem _ he),
      List.filterMap_cons, hws]

/-- C9: the worker attempts every dequeued chunk exactly once; when both
adapter calls succeed for every chunk it stores each transformed record in
order and never panics, and on the first chunk for which `SendFile` or
`AddChunkToFile` fails it panics (terminating the process), having stored
exactly the successfully persisted prefix — no silent drop, no retry. -/
theorem worker_fail_loud (send : List Nat → Option String) (addOk : Chunk → Bool) :
    (∀ q : List Chunk, (∀ c ∈ q, (workerSuccess send addOk c).isSome) →
        uploaderWorker send addOk q = (q.filterMap (workerSuccess send addOk), false))
    ∧ (∀ (pre post : List Chunk) (c : Chunk),
        (∀ d ∈ pre, (workerSuccess send addOk d).isSome) →
        workerSuccess send addOk c = none →
        uploaderWorker send addOk (pre ++ c :: post)
          = (pre.filterMap (workerSuccess send addOk), true)) :=
  ⟨uploaderWorker_all_ok send addOk,
   fun pre post c hpre hfail => uploaderWorker_first_fail send addOk c hfail pre post hpre⟩

/-- Witness for C9: one chunk, transport and store succeed. -/
theorem worker_fail_loud_witness :
    uploaderWorker (fun _ => some ("t")) (fun _ => true) [mkUploadChunk 1 1 [5]]
      = ([{ mkUploadChunk 1 1 [5] with telegramFileID := "t", data := ([] : List Nat) }],
         false) := by
  have h := (worker_fail_loud (fun _ => some ("t")) (fun _ => true)).1
    [mkUploadChunk 1 1 [5]] (by decide)
  rw [h]
  rfl

/-- C7 (amended): each chunk is created with *empty* status and empty
external reference (the Go zero values — not `"pending"`), and on successful
persistence the stored record carries exactly the reference the transport
returned and cleared bytes, with the status field left unchanged (never set
to `"persisted"`). -/
theorem chunk_status_lifecycle (fid : Nat) (reads : List (List Nat)) :
    (∀ c ∈ enqueuedChunks fid reads, c.status = "" ∧ c.telegramFileID = "")
    ∧ (∀ (send : List Nat → Option String) (addOk : Chunk → Bool) (c c1 : Chunk),
        workerSuccess send addOk c = some c1 →
        c1.data = [] ∧ some c1.telegramFileID = send c.data
        ∧ c1.status = c.status) := by
  constructor
  · intro c hc
    have he : enqueuedChunks fid reads = chunksFrom fid 1 (frames reads.flatten) := by
      rw [enqueuedChunks, processPart_clean _ _ rfl]
    rw [he] at hc
    have hf := mem_chunksFrom_fields fid _ _ c hc
    exact ⟨hf.1, hf.2.1⟩
  · intro send addOk c c1 h
    cases hsend : send c.data with
    | none =>
      rw [workerSuccess, hsend] at h
      simp at h
    | some tgid =>
      by_cases haddOk : addOk { c with telegramFileID := tgid, data := ([] : List Nat) }
      · rw [workerSuccess, hsend] at h
        simp only [haddOk, if_true, if_pos] at h
        have hc1 := (Option.some.inj h).symm
        subst hc1
        exact ⟨rfl, rfl, rfl⟩
      · rw [workerSuccess, hsend] at h
        simp only [Bool.not_eq_true] at haddOk
        simp [haddOk] at h

/-- Witness for C7 (amended): a one-byte upload and a successful persist. -/
theorem chunk_status_lifecycle_witness :
    ((mkUploadChunk 1 1 [8]).status = "" ∧ (mkUploadChunk 1 1 [8]).telegramFileID = "")
    ∧ (({ mkUploadChunk 1 1 [8] with telegramFileID := "t", data := ([] : List Nat) }).data = []
       ∧ ({ mkUploadChunk 1 1 [8] with telegramFileID := "t", data := ([] : List Nat) }).status
           = (mkUploadChunk 1 1 [8]).status) := by
  have h := chunk_status_lifecycle 1 [[8]]
  have he : enqueuedChunks 1 [[8]] = [mkUploadChunk 1 1 [8]] := by
    rw [enqueuedChunks, processPart_clean _ _ rfl]
    rw [show (([[8]] : List (List Nat)).flatten) = [8] by simp]
    rw [frames_small (by simp) (by norm_num [ChunkSize])]
    rfl
  have h1 := h.1 (mkUploadChunk 1 1 [8]) (by rw [he]; exact List.mem_singleton.mpr rfl)
  have h2 := h.2 (fun _ => some ("t")) (fun _ => true) (mkUploadChunk 1 1 [8])
    { mkUploadChunk 1 1 [8] with telegramFileID := "t", data := ([] : List Nat) }
    (by rfl)
  exact ⟨h1, h2.1, h2.2.2⟩

/-- C7 (counterexample): the chunks `handleUpload` enqueues carry status `""`
(the Go zero value), not `"pending"`, and after the worker persists one the
stored record still has status `""`, not `"persisted"`. -/
theorem chunk_status_not_pending :
    (enqueuedChunks 1 [[42]]).map Chunk.status = [""]
    ∧ ¬ (enqueuedChunks 1 [[42]]).map Chunk.status = ["pending"]
    ∧ (uploaderWorker (fun _ => some ("tg")) (fun _ => true)
        (enqueuedChunks 1 [[42]])).1.map Chunk.status = [""]
    ∧ ¬ (uploaderWorker (fun _ => some ("tg")) (fun _ => true)
        (enqueuedChunks 1 [[42]])).1.map Chunk.status = ["persisted"] := by
  have he : enqueuedChunks 1 [[42]] = [mkUploadChunk 1 1 [42]] := by
    rw [enqueuedChunks, processPart_clean _ _ rfl]
    rw [show (([[42]] : List (List Nat)).flatten) = [42] by simp]
    rw [frames_small (by simp) (by norm_num [ChunkSize])]
    rfl
  rw [he]
  exact ⟨rfl, by decide, rfl, by decide⟩

/-! ## The buffer-aliasing defect behind the queue (C2) -/

lemma fullFrames_flatten_restOf (l : List Nat) :
    (fullFrames l).flatten ++ restOf l = l := by
  induction l using fullFrames_induction with
  | base l h => rw [fullFrames_of_lt h, restOf_of_lt h]; simp
  | step l h ih =>
    rw [fullFrames_of_le h, restOf_of_le h, List.flatten_cons, List.append_assoc, ih]
    exact List.take_append_drop _ _

/-- The frames the loop pushes concatenate, in order, to the input bytes. -/
lemma frames_flatten (l : List Nat) : (frames l).flatten = l := by
  by_cases hr : restOf l = []
  · have h := fullFrames_flatten_restOf l
    rw [hr, List.append_nil] at h
    rw [frames, if_pos hr, List.append_nil, h]
  · rw [frames, if_neg hr, List.flatten_append, List.flatten_cons,
      List.flatten_nil, List.append_nil]
    exact fullFrames_flatten_restOf l

lemma frameDataAliased_absorb (st : AliasedFramer) (data : List Nat)
    (hemp : ¬ data = []) (hsp : ChunkSize - st.chunkLen > data.length) :
    frameDataAliased st data
      = { buf := writeBuf st.buf st.chunkLen data,
          chunkLen := st.chunkLen + data.length,
          emittedLens := st.emittedLens } := by
  rw [frameDataAliased, if_neg (by simpa using hemp), if_pos hsp]

lemma frameDataAliased_emit (st : AliasedFramer) (data : List Nat)
    (hemp : ¬ data = []) (hsp : ¬ ChunkSize - st.chunkLen > data.length) :
    frameDataAliased st data
      = frameDataAliased
          { buf := writeBuf st.buf st.chunkLen (data.take (ChunkSize - st.chunkLen)),
            chunkLen := 0,
            emittedLens := st.emittedLens
              ++ [st.chunkLen + (ChunkSize - st.chunkLen)] }
          (data.drop (ChunkSize - st.chunkLen)) := by
  rw [frameDataAliased, if_neg (by simpa using hemp), if_neg hsp]

/-- C2: the queued chunk values do concatenate to the input in position
order — but the bytes a worker *observes when it dequeues them* need not.
For the `ChunkSize + 1`-byte stream whose first byte is 0 and last byte
is 1, a worker that dequeues after the producer finished the part (a legal
schedule) reads a corrupted first chunk: the tail-frame `append` after
`chunk = chunk[:0]` overwrote byte 0 of the shared backing array the queued
`Data` slice still references, so the observed concatenation no longer
equals the stream. -/
theorem aliased_buffer_corrupts_dequeued_data :
    ((enqueuedChunks 1
        [0 :: (List.replicate (ChunkSize - 1) 0 ++ [1])]).map Chunk.data).flatten
      = 0 :: (List.replicate (ChunkSize - 1) 0 ++ [1])
    ∧ ¬ (dequeuedData (aliasedPartState
          [0 :: (List.replicate (ChunkSize - 1) 0 ++ [1])])).flatten
        = 0 :: (List.replicate (ChunkSize - 1) 0 ++ [1]) := by
  constructor
  · have he : enqueuedChunks 1 [0 :: (List.replicate (ChunkSize - 1) 0 ++ [1])]
        = chunksFrom 1 1 (frames
            (([0 :: (List.replicate (ChunkSize - 1) 0 ++ [1])] :
              List (List Nat)).flatten)) := by
      rw [enqueuedChunks, processPart_clean _ _ rfl]
    rw [he, chunksFrom_map_data,
      show (([0 :: (List.replicate (ChunkSize - 1) 0 ++ [1])] :
        List (List Nat)).flatten) = 0 :: (List.replicate (ChunkSize - 1) 0 ++ [1])
        by simp,
      frames_flatten]
  · obtain ⟨k, hk⟩ : ∃ k, ChunkSize = k + 1 :=
      ⟨ChunkSize - 1, by have := chunkSize_pos; omega⟩
    have hC : ChunkSize = 20971520 := by norm_num [ChunkSize]
    rw [hk]
    simp only [Nat.add_sub_cancel]
    have htake : (0 :: (List.replicate k 0 ++ [1])).take ChunkSize
        = 0 :: List.replicate k 0 := by
      rw [hk, List.take_succ_cons, List.take_left' (List.length_replicate _ _)]
    have hdrop : (0 :: (List.replicate k 0 ++ [1])).drop ChunkSize = [1] := by
      rw [hk, List.drop_succ_cons, List.drop_left' (List.length_replicate _ _)]
    have hstep1 : frameDataAliased { buf := [], chunkLen := 0, emittedLens := [] }
        (0 :: (List.replicate k 0 ++ [1]))
        = frameDataAliased
            { buf := 0 :: List.replicate k 0, chunkLen := 0,
              emittedLens := [ChunkSize] } [1] := by
      rw [frameDataAliased_emit _ _ (by simp)
        (by simp [List.length_replicate]; omega)]
      simp only [Nat.sub_zero, Nat.zero_add, List.nil_append]
      rw [htake, hdrop]
      simp [writeBuf]
    have hstep2 : frameDataAliased
        { buf := 0 :: List.replicate k 0, chunkLen := 0,
          emittedLens := [ChunkSize] } [1]
        = { buf := 1 :: List.replicate k 0, chunkLen := 1,
            emittedLens := [ChunkSize] } := by
      rw [frameDataAliased_absorb _ _ (by simp)
        (by simp only [Nat.sub_zero, List.length_singleton]; omega)]
      simp [writeBuf]
    have hstate : aliasedPartState [0 :: (List.replicate k 0 ++ [1])]
        = { buf := 1 :: List.replicate k 0, chunkLen := 1,
            emittedLens := [ChunkSize, 1] } := by
      rw [aliasedPartState]
      simp only [List.foldl_cons, List.foldl_nil]
      rw [hstep1, hstep2]
      rfl
    intro hcon
    have hhead : ((dequeuedData (aliasedPartState
        [0 :: (List.replicate k 0 ++ [1])])).flatten).head? = some 1 := by
      rw [hstate, dequeuedData]
      simp only [List.map_cons, List.map_nil, List.flatten_cons, List.flatten_nil]
      rw [List.take_of_length_le
        (by simp only [List.length_cons, List.length_replicate]; omega)]
      rfl
    rw [hcon] at hhead
    simp at hhead

end InfinityStorage